import Mathlib

/-!
Verification development for the firmware catalog/download module
`modellbahndisplays_de_integration.py`.

The Python module is shallowly embedded as follows.

* Python dicts become insertion-ordered association lists over `Int` keys,
  with first-occurrence lookup/update semantics (`alistGet?`, `alistSet`,
  `alistModify`).
* The one place where Python object identity is observable — the same
  `Firmware` object being appended to two different firmware lists in
  `load_firmware_from_website` — is modelled with an explicit object heap:
  `FirmwareList.fwHeap` stores `Firmware` records and firmware lists store
  heap indices (references).
* The filesystem seen by `download_file` is modelled per destination path by
  the digest of the file currently at that path (`DLState.file`); the content
  hash of a file (`fhash.hash_of_file`) is the stored digest itself, and a
  network download is an oracle `Option String` giving the digest of the
  bytes the URL would deliver (`none` models `requests.get` raising).
* Python exceptions are modelled with `Except Unit`: a function that can let
  an exception escape returns `Except Unit α`; `Except.error ()` is an
  uncaught exception reaching the caller.
* A JSON row fetched from the remote service is a record of `Option` fields:
  `none` models a missing key, so that `row[k]` raising `KeyError` becomes an
  `Option` match.
-/

namespace Mbdflasher

/-! ## Association lists: the model of Python dicts -/

def alistGet? {α : Type} : List (Int × α) → Int → Option α
  | [], _ => none
  | (k1, v) :: t, k => if k1 = k then some v else alistGet? t k

def alistSet {α : Type} : List (Int × α) → Int → α → List (Int × α)
  | [], k, v => [(k, v)]
  | (k1, v1) :: t, k, v => if k1 = k then (k, v) :: t else (k1, v1) :: alistSet t k v

def alistModify {α : Type} : List (Int × α) → Int → (α → α) → List (Int × α)
  | [], _, _ => []
  | (k1, v1) :: t, k, f => if k1 = k then (k1, f v1) :: t else (k1, v1) :: alistModify t k f

theorem alistGet?_mem {α : Type} {l : List (Int × α)} {k : Int} {v : α}
    (h : alistGet? l k = some v) : (k, v) ∈ l := by
  induction l with
  | nil => simp [alistGet?] at h
  | cons e t ih =>
    obtain ⟨k1, v1⟩ := e
    by_cases hk : k1 = k
    · subst hk
      simp [alistGet?] at h
      subst h
      exact List.mem_cons_self _ _
    · simp [alistGet?, hk] at h
      exact List.mem_cons_of_mem _ (ih h)

theorem mem_alistSet {α : Type} {l : List (Int × α)} {k : Int} {v : α} {e : Int × α}
    (h : e ∈ alistSet l k v) : e = (k, v) ∨ e ∈ l := by
  induction l with
  | nil =>
    simp [alistSet] at h
    exact Or.inl h
  | cons e1 t ih =>
    obtain ⟨k1, v1⟩ := e1
    by_cases hk : k1 = k
    · subst hk
      simp [alistSet] at h
      rcases h with h | h
      · exact Or.inl h
      · exact Or.inr (List.mem_cons_of_mem _ h)
    · simp [alistSet, hk] at h
      rcases h with h | h
      · exact Or.inr (by simp [h])
      · rcases ih h with h2 | h2
        · exact Or.inl h2
        · exact Or.inr (List.mem_cons_of_mem _ h2)

theorem alistGet?_set_self {α : Type} (l : List (Int × α)) (k : Int) (v : α) :
    alistGet? (alistSet l k v) k = some v := by
  induction l with
  | nil => simp [alistSet, alistGet?]
  | cons e t ih =>
    obtain ⟨k1, v1⟩ := e
    by_cases hk : k1 = k
    · subst hk
      simp [alistSet, alistGet?]
    · simp [alistSet, alistGet?, hk]
      exact ih

theorem alistGet?_set_ne {α : Type} (l : List (Int × α)) (k k2 : Int) (v : α)
    (h : k2 ≠ k) : alistGet? (alistSet l k v) k2 = alistGet? l k2 := by
  have hks : ¬ k = k2 := fun he => h he.symm
  induction l with
  | nil => simp [alistSet, alistGet?, hks]
  | cons e t ih =>
    obtain ⟨k1, v1⟩ := e
    by_cases hk : k1 = k
    · subst hk
      simp [alistSet, alistGet?, hks]
    · by_cases hk2 : k1 = k2
      · subst hk2
        simp [alistSet, alistGet?, hk]
      · simp [alistSet, alistGet?, hk, hk2]
        exact ih

theorem alistGet?_modify_self {α : Type} (l : List (Int × α)) (k : Int) (f : α → α) :
    alistGet? (alistModify l k f) k = (alistGet? l k).map f := by
  induction l with
  | nil => simp [alistModify, alistGet?]
  | cons e t ih =>
    obtain ⟨k1, v1⟩ := e
    by_cases hk : k1 = k
    · subst hk
      simp [alistModify, alistGet?]
    · simp [alistModify, alistGet?, hk]
      exact ih

theorem alistGet?_modify_ne {α : Type} (l : List (Int × α)) (k k2 : Int) (f : α → α)
    (h : k2 ≠ k) : alistGet? (alistModify l k f) k2 = alistGet? l k2 := by
  have hks : ¬ k = k2 := fun he => h he.symm
  induction l with
  | nil => simp [alistModify, alistGet?]
  | cons e t ih =>
    obtain ⟨k1, v1⟩ := e
    by_cases hk : k1 = k
    · subst hk
      simp [alistModify, alistGet?, hks]
    · by_cases hk2 : k1 = k2
      · subst hk2
        simp [alistModify, alistGet?, hk]
      · simp [alistModify, alistGet?, hk, hk2]
        exact ih

theorem mem_keys_alistSet {α : Type} {l : List (Int × α)} {k k2 : Int} {v : α}
    (h : k2 ∈ (alistSet l k v).map Prod.fst) : k2 ∈ l.map Prod.fst ∨ k2 = k := by
  rw [List.mem_map] at h
  obtain ⟨e, he, hk⟩ := h
  rcases mem_alistSet he with h1 | h1
  · subst h1
    exact Or.inr hk.symm
  · exact Or.inl (List.mem_map.mpr ⟨e, h1, hk⟩)

theorem keys_nodup_alistSet {α : Type} {l : List (Int × α)} (k : Int) (v : α)
    (h : (l.map Prod.fst).Nodup) : ((alistSet l k v).map Prod.fst).Nodup := by
  induction l with
  | nil => simp [alistSet]
  | cons e t ih =>
    obtain ⟨k1, v1⟩ := e
    rw [List.map_cons, List.nodup_cons] at h
    by_cases hk : k1 = k
    · subst hk
      show ((if k1 = k1 then (k1, v) :: t else (k1, v1) :: alistSet t k1 v).map Prod.fst).Nodup
      rw [if_pos rfl, List.map_cons, List.nodup_cons]
      exact h
    · show ((if k1 = k then (k, v) :: t else (k1, v1) :: alistSet t k v).map Prod.fst).Nodup
      rw [if_neg hk, List.map_cons, List.nodup_cons]
      refine ⟨fun hmem => ?_, ih h.2⟩
      rcases mem_keys_alistSet hmem with h1 | h1
      · exact h.1 h1
      · exact hk h1

theorem mem_alistSet_nodup {α : Type} {l : List (Int × α)} {k : Int} {v : α} {e : Int × α}
    (hnd : (l.map Prod.fst).Nodup) (h : e ∈ alistSet l k v) :
    e = (k, v) ∨ (e ∈ l ∧ e.1 ≠ k) := by
  induction l with
  | nil =>
    simp [alistSet] at h
    exact Or.inl h
  | cons e1 t ih =>
    obtain ⟨k1, v1⟩ := e1
    rw [List.map_cons, List.nodup_cons] at hnd
    by_cases hk : k1 = k
    · subst hk
      have h2 : e ∈ (k1, v) :: t := by
        have : alistSet ((k1, v1) :: t) k1 v = (k1, v) :: t := by
          show (if k1 = k1 then (k1, v) :: t else (k1, v1) :: alistSet t k1 v) = (k1, v) :: t
          rw [if_pos rfl]
        exact this ▸ h
      rcases List.mem_cons.mp h2 with h3 | h3
      · exact Or.inl h3
      · refine Or.inr ⟨List.mem_cons_of_mem _ h3, fun he => ?_⟩
        exact hnd.1 (he ▸ List.mem_map.mpr ⟨e, h3, rfl⟩)
    · have h2 : e ∈ (k1, v1) :: alistSet t k v := by
        have : alistSet ((k1, v1) :: t) k v = (k1, v1) :: alistSet t k v := by
          show (if k1 = k then (k, v) :: t else (k1, v1) :: alistSet t k v) = _
          rw [if_neg hk]
        exact this ▸ h
      rcases List.mem_cons.mp h2 with h3 | h3
      · subst h3
        exact Or.inr ⟨List.mem_cons_self _ _, hk⟩
      · rcases ih hnd.2 h3 with h1 | h1
        · exact Or.inl h1
        · exact Or.inr ⟨List.mem_cons_of_mem _ h1.1, h1.2⟩

/-! ## Data model -/

/-- DeviceFamily dataclass. `firmware` is a list of heap references into
`FirmwareList.fwHeap`, modelling the Python list of `Firmware` object
references. -/
structure DeviceFamily where
  name : String := ""
  flash_method : String := ""
  detection_family : String := ""
  id : Int := 0
  firmware : List Nat := []
  use_1200_bps_touch : Bool := false
  download_url_bootloader : String := ""
  download_url_otadata : String := ""
  otadata_address : String := ""
  checksum_bootloader : String := ""
  checksum_otadata : String := ""
deriving DecidableEq

/-- Project dataclass. `device_families` is the Python dict
`Dict[int, DeviceFamily]`. The Python attribute `show` is named
`show_in_standalone_flasher` here after its JSON key, since `show` is a Lean
keyword. -/
structure Project where
  name : String := ""
  weight : Int := 0
  description : String := ""
  support_url : String := ""
  id : Int := 0
  project_url : String := ""
  documentation_url : String := ""
  show_in_standalone_flasher : String := ""
  device_families : List (Int × DeviceFamily) := []
deriving DecidableEq

/-- Firmware dataclass. The Python attribute `family` holds a reference to
the `DeviceFamily` object found in the global registry at construction time;
`family_ref` records the id under which that object was looked up. -/
structure Firmware where
  name : String := ""
  version : String := ""
  family_id : Int := 0
  family_ref : Int := 0
  variant : String := ""
  is_fermentrack_supported : String := ""
  in_error : String := ""
  description : String := ""
  variant_description : String := ""
  download_url : String := ""
  post_install_instructions : String := ""
  weight : String := ""
  download_url_partitions : String := ""
  download_url_spiffs : String := ""
  checksum : String := ""
  checksum_partitions : String := ""
  checksum_spiffs : String := ""
  spiffs_address : String := ""
  id : Int := 0
  project_id : Int := 0
deriving DecidableEq

/-- FirmwareList dataclass, plus the explicit object heap `fwHeap` holding
the `Firmware` objects created during `load_firmware_from_website`; firmware
lists in `DeviceFamily` store indices into this heap. -/
structure FirmwareList where
  DeviceFamilies : List (Int × DeviceFamily) := []
  Projects : List (Int × Project) := []
  valid_family_ids : List Int := []
  fwHeap : List Firmware := []
deriving DecidableEq

def emptyFL : FirmwareList :=
  { DeviceFamilies := [], Projects := [], valid_family_ids := [], fwHeap := [] }

/-! ## Firmware.download_file -/

/-- The state of one destination path: `file` is the digest of the file
currently at the path (`none` when no file exists), `netRequests` counts the
outbound network requests performed against this path. -/
structure DLState where
  file : Option String := none
  netRequests : Nat := 0
deriving DecidableEq

/-- Lines 92-112 of `Firmware.download_file`: everything after the
existing-file block. `net` is the digest of the bytes `requests.get(url)`
would stream back, `none` when the request raises (the exception is not
caught and escapes as `Except.error ()`). -/
def download_file_rest (checksum : String) (check_checksum : Bool)
    (url : String) (net : Option String) (s : DLState) : Except Unit (Bool × DLState) :=
  if url.length < 12 then .ok (false, s)
  else
    match net with
    | none => .error ()
    | some content =>
      let s2 : DLState := { s with file := some content, netRequests := s.netRequests + 1 }
      if check_checksum then
        match s2.file with
        | some h => if checksum ≠ h then .ok (false, { s2 with file := none }) else .ok (true, s2)
        | none => .ok (false, s2)
      else .ok (true, s2)

/-- Lines 81-112 of `Firmware.download_file`. Note that in the existing-file
block the digest comparison on line 85 is performed unconditionally — it is
not guarded by `check_checksum`. -/
def download_file (checksum : String) (check_checksum force_download : Bool)
    (url : String) (net : Option String) (s : DLState) : Except Unit (Bool × DLState) :=
  match s.file with
  | some h =>
    if force_download then
      download_file_rest checksum check_checksum url net { s with file := none }
    else if checksum = h then .ok (true, s)
    else
      download_file_rest checksum check_checksum url net { s with file := none }
  | none => download_file_rest checksum check_checksum url net s

/-- Modelled from the words of spec section 4.2 (the algorithm claim C3
describes), for comparison with `download_file`: in this version step 2, the
cached-file digest check, runs only when `verifyChecksum` is set, and is
skipped entirely when it is unset. Steps 3-6 are shared with the code via
`download_file_rest`, where code and spec agree. -/
def fetch_spec (expectedChecksum : String) (verifyChecksum forceRedownload : Bool)
    (sourceURL : String) (net : Option String) (s : DLState) : Except Unit (Bool × DLState) :=
  match s.file with
  | some h =>
    if forceRedownload then
      download_file_rest expectedChecksum verifyChecksum sourceURL net { s with file := none }
    else if verifyChecksum then
      if expectedChecksum = h then .ok (true, s)
      else download_file_rest expectedChecksum verifyChecksum sourceURL net { s with file := none }
    else download_file_rest expectedChecksum verifyChecksum sourceURL net s
  | none => download_file_rest expectedChecksum verifyChecksum sourceURL net s

/-! ## Firmware.download_to_file -/

/-- The five artifact kinds of `download_to_file` / `remove_downloaded_firmware`;
each has its own destination path `<kind>.bin`. -/
inductive ArtifactKind
  | partitions
  | spiffs
  | bootloader
  | otadata
  | firmware
deriving DecidableEq

/-- One destination path plus the content its source URL would deliver. -/
structure ArtifactSlot where
  st : DLState := {}
  net : Option String := none
deriving DecidableEq

/-- The five destination paths used by one `download_to_file` run. -/
structure DownloadEnv where
  partitions : ArtifactSlot := {}
  spiffs : ArtifactSlot := {}
  bootloader : ArtifactSlot := {}
  otadata : ArtifactSlot := {}
  firmware : ArtifactSlot := {}
deriving DecidableEq

def getSlot (env : DownloadEnv) : ArtifactKind → ArtifactSlot
  | .partitions => env.partitions
  | .spiffs => env.spiffs
  | .bootloader => env.bootloader
  | .otadata => env.otadata
  | .firmware => env.firmware

def setSlot (env : DownloadEnv) : ArtifactKind → ArtifactSlot → DownloadEnv
  | .partitions, a => { env with partitions := a }
  | .spiffs, a => { env with spiffs := a }
  | .bootloader, a => { env with bootloader := a }
  | .otadata, a => { env with otadata := a }
  | .firmware, a => { env with firmware := a }

/-- Lines 151-154 of `download_to_file`: the main firmware image, attempted
unconditionally; its result is the result of the whole call. The returned log
records each attempted artifact (the `print` call before each
`download_file`) together with that step's outcome. -/
def dtf_main (fw : Firmware) (cc fd : Bool) (env : DownloadEnv) :
    Except Unit (Bool × List (ArtifactKind × Bool) × DownloadEnv) :=
  match download_file fw.checksum cc fd fw.download_url env.firmware.net env.firmware.st with
  | .error e => .error e
  | .ok (b, st2) =>
    .ok (b, [(ArtifactKind.firmware, b)],
      { env with firmware := { env.firmware with st := st2 } })

/-- Lines 144-149: the otadata artifact, family-sourced, only when both its
URL and its address pass the length checks; on failure the call returns
`False` immediately. -/
def dtf_otadata (fw : Firmware) (fam : DeviceFamily) (cc fd : Bool) (env : DownloadEnv) :
    Except Unit (Bool × List (ArtifactKind × Bool) × DownloadEnv) :=
  if fam.download_url_otadata.length > 12 ∧ fam.otadata_address.length > 2 then
    match download_file fam.checksum_otadata cc fd fam.download_url_otadata
        env.otadata.net env.otadata.st with
    | .error e => .error e
    | .ok (b, st2) =>
      let env2 := { env with otadata := { env.otadata with st := st2 } }
      if b then
        match dtf_main fw cc fd env2 with
        | .error e => .error e
        | .ok (res, log, env3) => .ok (res, (ArtifactKind.otadata, true) :: log, env3)
      else .ok (false, [(ArtifactKind.otadata, false)], env2)
  else dtf_main fw cc fd env

/-- Lines 137-142: the bootloader artifact, family-sourced, only when its URL
passes the length check. -/
def dtf_bootloader (fw : Firmware) (fam : DeviceFamily) (cc fd : Bool) (env : DownloadEnv) :
    Except Unit (Bool × List (ArtifactKind × Bool) × DownloadEnv) :=
  if fam.download_url_bootloader.length > 12 then
    match download_file fam.checksum_bootloader cc fd fam.download_url_bootloader
        env.bootloader.net env.bootloader.st with
    | .error e => .error e
    | .ok (b, st2) =>
      let env2 := { env with bootloader := { env.bootloader with st := st2 } }
      if b then
        match dtf_otadata fw fam cc fd env2 with
        | .error e => .error e
        | .ok (res, log, env3) => .ok (res, (ArtifactKind.bootloader, true) :: log, env3)
      else .ok (false, [(ArtifactKind.bootloader, false)], env2)
  else dtf_otadata fw fam cc fd env

/-- Lines 130-135: the SPIFFS/LittleFS artifact, only when both its URL and
the SPIFFS address pass the length checks. -/
def dtf_spiffs (fw : Firmware) (fam : DeviceFamily) (cc fd : Bool) (env : DownloadEnv) :
    Except Unit (Bool × List (ArtifactKind × Bool) × DownloadEnv) :=
  if fw.download_url_spiffs.length > 12 ∧ fw.spiffs_address.length > 2 then
    match download_file fw.checksum_spiffs cc fd fw.download_url_spiffs
        env.spiffs.net env.spiffs.st with
    | .error e => .error e
    | .ok (b, st2) =>
      let env2 := { env with spiffs := { env.spiffs with st := st2 } }
      if b then
        match dtf_bootloader fw fam cc fd env2 with
        | .error e => .error e
        | .ok (res, log, env3) => .ok (res, (ArtifactKind.spiffs, true) :: log, env3)
      else .ok (false, [(ArtifactKind.spiffs, false)], env2)
  else dtf_bootloader fw fam cc fd env

/-- Lines 121-154, `Firmware.download_to_file`, starting with the partitions
artifact of lines 123-128. `fam` is the DeviceFamily object referenced by the
`family` attribute of `fw`. -/
def download_to_file (fw : Firmware) (fam : DeviceFamily) (cc fd : Bool)
    (env : DownloadEnv) :
    Except Unit (Bool × List (ArtifactKind × Bool) × DownloadEnv) :=
  if fw.download_url_partitions.length > 12 then
    match download_file fw.checksum_partitions cc fd fw.download_url_partitions
        env.partitions.net env.partitions.st with
    | .error e => .error e
    | .ok (b, st2) =>
      let env2 := { env with partitions := { env.partitions with st := st2 } }
      if b then
        match dtf_spiffs fw fam cc fd env2 with
        | .error e => .error e
        | .ok (res, log, env3) => .ok (res, (ArtifactKind.partitions, true) :: log, env3)
      else .ok (false, [(ArtifactKind.partitions, false)], env2)
  else dtf_spiffs fw fam cc fd env

/-- A generic guarded-sequence runner: attempt the given (kind, checksum,
URL) steps in order via `download_file`, short-circuiting with `false` on the
first failing step and propagating an uncaught exception. Used as the
specification shape against which `download_to_file` is proved equal. -/
def runSteps (cc fd : Bool) : DownloadEnv → List (ArtifactKind × String × String) →
    Except Unit (Bool × List (ArtifactKind × Bool) × DownloadEnv)
  | env, [] => .ok (true, [], env)
  | env, (k, cs, url) :: rest =>
    match download_file cs cc fd url (getSlot env k).net (getSlot env k).st with
    | .error e => .error e
    | .ok (b, st2) =>
      let env2 := setSlot env k { getSlot env k with st := st2 }
      if b then
        match runSteps cc fd env2 rest with
        | .error e => .error e
        | .ok (res, log, env3) => .ok (res, (k, true) :: log, env3)
      else .ok (false, [(k, false)], env2)

/-- The fixed plan of `download_to_file`: partitions, SPIFFS, bootloader,
otadata — each present exactly when its source guard holds — and always the
main firmware image last. -/
def plannedSteps (fw : Firmware) (fam : DeviceFamily) :
    List (ArtifactKind × String × String) :=
  (if fw.download_url_partitions.length > 12 then
    [(ArtifactKind.partitions, fw.checksum_partitions, fw.download_url_partitions)]
  else []) ++
  ((if fw.download_url_spiffs.length > 12 ∧ fw.spiffs_address.length > 2 then
    [(ArtifactKind.spiffs, fw.checksum_spiffs, fw.download_url_spiffs)]
  else []) ++
  ((if fam.download_url_bootloader.length > 12 then
    [(ArtifactKind.bootloader, fam.checksum_bootloader, fam.download_url_bootloader)]
  else []) ++
  ((if fam.download_url_otadata.length > 12 ∧ fam.otadata_address.length > 2 then
    [(ArtifactKind.otadata, fam.checksum_otadata, fam.download_url_otadata)]
  else []) ++
  [(ArtifactKind.firmware, fw.checksum, fw.download_url)])))

/-! ## Firmware.pre_flash_web_verify -/

/-- The outcome of `requests.post(url, json=...)` followed by `r.json()`.
`err` models the request or the JSON decoding raising; `json st msg` is a
decoded dict whose `status` and `message` keys may each be missing. -/
inductive VerifyResp
  | err : VerifyResp
  | json (status : Option String) (message : Option String) : VerifyResp
deriving DecidableEq

/-- Lines 156-173, `Firmware.pre_flash_web_verify`: `checksum` is the locally
cached checksum of the firmware. There is no try/except anywhere in the
function, so a failing request, undecodable body, or missing key raises and
the exception escapes to the caller. -/
def pre_flash_web_verify (checksum : String) (resp : VerifyResp) : Except Unit Bool :=
  match resp with
  | .err => .error ()
  | .json st msg =>
    match st with
    | none => .error ()
    | some s =>
      if s = "success" then
        match msg with
        | none => .error ()
        | some m => if m = checksum then .ok true else .ok false
      else .ok false

/-! ## FirmwareList: the three load stages, cleanse, and the full load -/

/-- A raw row of `GET /api/project_list/all/`. A `none` field models a
missing key, on which `row[k]` raises `KeyError`. -/
structure ProjectRow where
  name : Option String := none
  weight : Option Int := none
  id : Option Int := none
  description : Option String := none
  support_url : Option String := none
  project_url : Option String := none
  documentation_url : Option String := none
  show_in_standalone_flasher : Option String := none
deriving DecidableEq

/-- The body of the per-row try block of `load_projects_from_website`
(lines 205-209): constructing the `Project` succeeds exactly when every
accessed key is present; any missing key raises inside the try and the row
is skipped. -/
def parseProjectRow (row : ProjectRow) : Option (Int × Project) :=
  match row.name, row.weight, row.id, row.description, row.support_url,
      row.project_url, row.documentation_url, row.show_in_standalone_flasher with
  | some nm, some w, some i, some d, some su, some pu, some du, some sh =>
    some (i, { name := nm, weight := w, id := i, description := d, support_url := su,
               project_url := pu, documentation_url := du,
               show_in_standalone_flasher := sh, device_families := [] })
  | _, _, _, _, _, _, _, _ => none

/-- The row loop of `load_projects_from_website` (lines 201-214): a row whose
parse raises is skipped, otherwise `self.Projects[row[id]]` is assigned a
deep copy of the new project. -/
def load_project_rows : FirmwareList → List ProjectRow → FirmwareList
  | s, [] => s
  | s, row :: rest =>
    match parseProjectRow row with
    | some (pid, p) => load_project_rows { s with Projects := alistSet s.Projects pid p } rest
    | none => load_project_rows s rest

/-- Lines 195-217, `FirmwareList.load_projects_from_website`. The top-level
request and `response.json()` are NOT wrapped in any try/except, so their
failure (`resp = .error`) propagates as an exception; with data in hand the
stage returns `true` when the list is non-empty and `false` otherwise. -/
def load_projects_from_website (s : FirmwareList) (resp : Except Unit (List ProjectRow)) :
    Except Unit (Bool × FirmwareList) :=
  match resp with
  | .error e => .error e
  | .ok data =>
    if data.length > 0 then .ok (true, load_project_rows s data)
    else .ok (false, s)

/-- A raw row of `GET /api/firmware_family_list/`. -/
structure FamilyRow where
  name : Option String := none
  flash_method : Option String := none
  id : Option Int := none
  detection_family : Option String := none
  download_url_bootloader : Option String := none
  download_url_otadata : Option String := none
  otadata_address : Option String := none
  checksum_bootloader : Option String := none
  checksum_otadata : Option String := none
  use_1200_bps_touch : Option Bool := none
deriving DecidableEq

/-- The `DeviceFamily(...)` construction inside the per-row try block of
`load_families_from_website` (lines 232-239); a new family always starts with
an empty firmware list. -/
def parseFamilyRow (row : FamilyRow) : Option DeviceFamily :=
  match row.name, row.flash_method, row.id, row.detection_family,
      row.download_url_bootloader, row.download_url_otadata, row.otadata_address,
      row.checksum_bootloader, row.checksum_otadata, row.use_1200_bps_touch with
  | some nm, some fm, some i, some df, some dub, some duo, some oa, some cb, some co, some touch =>
    some { name := nm, flash_method := fm, detection_family := df, id := i, firmware := [],
           use_1200_bps_touch := touch, download_url_bootloader := dub,
           download_url_otadata := duo, otadata_address := oa,
           checksum_bootloader := cb, checksum_otadata := co }
  | _, _, _, _, _, _, _, _, _, _ => none

/-- The row loop of `load_families_from_website` (lines 228-250): skip the
row if construction raises; skip it if `flash_method` is not "esptool" while
`load_esptool_only` is set; otherwise register the family in the global
mapping, append its id to `valid_family_ids`, and store an independent deep
copy into the `device_families` dict of every currently known project. -/
def load_family_rows : FirmwareList → Bool → List FamilyRow → FirmwareList
  | s, _, [] => s
  | s, eo, row :: rest =>
    match parseFamilyRow row with
    | none => load_family_rows s eo rest
    | some fam =>
      if fam.flash_method ≠ "esptool" ∧ eo then load_family_rows s eo rest
      else
        load_family_rows
          { s with
            DeviceFamilies := alistSet s.DeviceFamilies fam.id fam,
            valid_family_ids := s.valid_family_ids ++ [fam.id],
            Projects := s.Projects.map (fun pr =>
              (pr.1, { pr.2 with device_families := alistSet pr.2.device_families fam.id fam })) }
          eo rest

/-- Lines 219-253, `FirmwareList.load_families_from_website`. Here the
top-level request IS wrapped in a try/except that returns `False`, so the
function is total. -/
def load_families_from_website (s : FirmwareList) (eo : Bool)
    (resp : Except Unit (List FamilyRow)) : Bool × FirmwareList :=
  match resp with
  | .error _ => (false, s)
  | .ok data =>
    if data.length > 0 then (true, load_family_rows s eo data) else (false, s)

/-- A raw row of `GET /api/firmware_list/all/`. -/
structure FirmwareRow where
  name : Option String := none
  version : Option String := none
  family_id : Option Int := none
  variant : Option String := none
  is_fermentrack_supported : Option String := none
  in_error : Option String := none
  description : Option String := none
  variant_description : Option String := none
  download_url : Option String := none
  post_install_instructions : Option String := none
  weight : Option String := none
  download_url_partitions : Option String := none
  download_url_spiffs : Option String := none
  checksum : Option String := none
  checksum_partitions : Option String := none
  checksum_spiffs : Option String := none
  spiffs_address : Option String := none
  id : Option Int := none
  project_id : Option Int := none
deriving DecidableEq

/-- The `Firmware(...)` construction of lines 270-281: every listed key is
accessed, so the construction fails (raising `KeyError`, uncaught) exactly
when some key is missing. `fid` is `row[family_id]`, already read for the
validity guard. -/
def parseFirmwareRow (fid : Int) (row : FirmwareRow) : Option Firmware :=
  match row.name, row.version, row.variant, row.is_fermentrack_supported,
      row.in_error, row.description, row.variant_description, row.download_url,
      row.post_install_instructions, row.weight, row.download_url_partitions,
      row.download_url_spiffs, row.checksum, row.checksum_partitions,
      row.checksum_spiffs, row.spiffs_address, row.id, row.project_id with
  | some nm, some ver, some va, some fs, some ie, some d, some vd, some du,
      some pi2, some w, some dup2, some dus, some cs, some csp, some css,
      some sa, some i, some pid =>
    some { name := nm, version := ver, family_id := fid, family_ref := fid,
           variant := va, is_fermentrack_supported := fs, in_error := ie,
           description := d, variant_description := vd, download_url := du,
           post_install_instructions := pi2, weight := w,
           download_url_partitions := dup2, download_url_spiffs := dus,
           checksum := cs, checksum_partitions := csp, checksum_spiffs := css,
           spiffs_address := sa, id := i, project_id := pid }
  | _, _, _, _, _, _, _, _, _, _, _, _, _, _, _, _, _, _ => none

/-- One iteration of the row loop of `load_firmware_from_website`
(lines 266-286). There is no per-row try/except: any failed key access or
dict lookup is an uncaught exception (`.error ()`) that aborts the stage.
The freshly created `Firmware` object is placed on the heap once and the SAME
reference is appended both to the global family firmware list (line 284) and
to the firmware list of the `device_families` copy of the project named by
`project_id` (line 285); the global append on line 284 happens before the
project lookups of line 285. -/
def load_firmware_row (s : FirmwareList) (row : FirmwareRow) : Except Unit FirmwareList :=
  match row.family_id with
  | none => .error ()
  | some fid =>
    if fid ∈ s.valid_family_ids then
      match parseFirmwareRow fid row, alistGet? s.DeviceFamilies fid with
      | some fw0, some _g =>
        -- The Projects lookups model line 285; when they raise, the heap and
        -- global-family mutations already performed by lines 270-284 are
        -- discarded together with the escaping exception, which no caller
        -- observes, so the success state is assembled in one step here.
        match alistGet? s.Projects fw0.project_id with
        | none => .error ()
        | some p =>
          match alistGet? p.device_families fid with
          | none => .error ()
          | some pf =>
            let pf2 := { pf with firmware := pf.firmware ++ [s.fwHeap.length] }
            let p2 := { p with device_families := alistSet p.device_families fid pf2 }
            .ok { s with
              fwHeap := s.fwHeap ++ [fw0],
              DeviceFamilies := alistModify s.DeviceFamilies fid
                (fun g => { g with firmware := g.firmware ++ [s.fwHeap.length] }),
              Projects := alistSet s.Projects fw0.project_id p2 }
      | _, _ => .error ()
    else .ok s

/-- The row loop of `load_firmware_from_website`: sequential, aborting on the
first row that raises. -/
def load_firmware_rows : FirmwareList → List FirmwareRow → Except Unit FirmwareList
  | s, [] => .ok s
  | s, row :: rest =>
    match load_firmware_row s row with
    | .error e => .error e
    | .ok s1 => load_firmware_rows s1 rest

/-- Lines 255-289, `FirmwareList.load_firmware_from_website`. The top-level
request is guarded by a try/except returning `False`, but the row loop is
not: a row failure escapes. -/
def load_firmware_from_website (s : FirmwareList) (resp : Except Unit (List FirmwareRow)) :
    Except Unit (Bool × FirmwareList) :=
  match resp with
  | .error _ => .ok (false, s)
  | .ok data =>
    if data.length > 0 then
      match load_firmware_rows s data with
      | .error e => .error e
      | .ok s2 => .ok (true, s2)
    else .ok (false, s)

/-- Lines 291-305, `FirmwareList.cleanse_projects`: iterating over a snapshot
of the keys, drop every device family whose firmware list is empty, then drop
the project itself if no family remains. On a dict (unique, insertion-ordered
keys) this is an ordered filter of the entries. -/
def cleanse_projects (s : FirmwareList) : FirmwareList :=
  { s with Projects := s.Projects.filterMap (fun pr =>
      if (pr.2.device_families.filter (fun fe => fe.2.firmware.length > 0)).length ≤ 0 then none
      else some (pr.1, { pr.2 with device_families :=
        pr.2.device_families.filter (fun fe => fe.2.firmware.length > 0) })) }

/-- Lines 307-314, `FirmwareList.load_from_website`: the three stages in
strict sequence followed by `cleanse_projects`, returning `True` only when
all three stages succeed. The three `resp` arguments stand for the three
network fetches the stages perform. -/
def load_from_website (s : FirmwareList) (projResp : Except Unit (List ProjectRow))
    (famResp : Except Unit (List FamilyRow)) (fwResp : Except Unit (List FirmwareRow))
    (eo : Bool) : Except Unit (Bool × FirmwareList) :=
  match load_projects_from_website s projResp with
  | .error e => .error e
  | .ok (ok1, s1) =>
    if ok1 then
      match load_families_from_website s1 eo famResp with
      | (ok2, s2) =>
        if ok2 then
          match load_firmware_from_website s2 fwResp with
          | .error e => .error e
          | .ok (ok3, s3) =>
            if ok3 then .ok (true, cleanse_projects s3) else .ok (false, s3)
        else .ok (false, s2)
    else .ok (false, s1)

/-! ## Invariants, views, and concrete fixtures -/

/-- Result projection of a `download_file` run: `some b` when the call
returns `b`, `none` when it raises. -/
def dlOutcome (r : Except Unit (Bool × DLState)) : Option Bool :=
  match r with
  | .ok (b, _) => some b
  | .error _ => none

/-- The reachability half of the section-3 invariant: every firmware
reference reachable from a project entry through its device-family mapping is
also present in the firmware list that the global `DeviceFamilies` registry
holds under the same family id. Content equality is automatic because the
reference points at the one heap object. -/
def FwReachInv (s : FirmwareList) : Prop :=
  ∀ pr ∈ s.Projects, ∀ fe ∈ pr.2.device_families, ∀ r ∈ fe.2.firmware,
    ∃ g, alistGet? s.DeviceFamilies fe.1 = some g ∧ r ∈ g.firmware

/-- Well-formedness of the per-project device-family dicts: no duplicate
keys (always true of a Python dict). -/
def DfKeysNodup (s : FirmwareList) : Prop :=
  ∀ pr ∈ s.Projects, (pr.2.device_families.map Prod.fst).Nodup

/-- Python statement `obj.name = nm` on the `Firmware` heap object at
reference `r`. -/
def mutateFwName (s : FirmwareList) (r : Nat) (nm : String) : FirmwareList :=
  match s.fwHeap.get? r with
  | some fw => { s with fwHeap := s.fwHeap.set r { fw with name := nm } }
  | none => s

/-- The firmware references listed by the device family stored under `fid`
inside the project stored under `pid`. -/
def projectFamilyRefs (s : FirmwareList) (pid fid : Int) : List Nat :=
  match alistGet? s.Projects pid with
  | none => []
  | some p =>
    match alistGet? p.device_families fid with
    | none => []
    | some f => f.firmware

/-- The firmware references listed by the global registry family `fid`. -/
def globalFamilyRefs (s : FirmwareList) (fid : Int) : List Nat :=
  match alistGet? s.DeviceFamilies fid with
  | none => []
  | some f => f.firmware

/-- The name field of the heap object behind reference `r`. -/
def fwNameAt (s : FirmwareList) (r : Nat) : Option String :=
  (s.fwHeap.get? r).map Firmware.name

/-- The firmware names seen when iterating the global registry family `fid`
and dereferencing each element. -/
def globalFamilyFwNames (s : FirmwareList) (fid : Int) : List (Option String) :=
  (globalFamilyRefs s fid).map (fwNameAt s)

/-- A project row missing its `name` key (C4 fixture). -/
def badProjectRow : ProjectRow :=
  { name := none, weight := some 0, id := some 1, description := some "",
    support_url := some "", project_url := some "", documentation_url := some "",
    show_in_standalone_flasher := some "" }

/-- C8 fixture: one project owning one family with one firmware reference. -/
def c8Fam : DeviceFamily := { id := 10, firmware := [0] }

def c8Proj : Project := { id := 1, device_families := [(10, c8Fam)] }

def c8State : FirmwareList := { Projects := [(1, c8Proj)] }

/-- C10 fixture: a catalog state as left by stages 1 and 2 (one project id 1,
one registered family id 10, valid ids [10]), and a firmware row whose
`family_id` 10 is valid but whose `project_id` 2 is not a key of the project
mapping. -/
def c10Fam : DeviceFamily := { name := "FamA", flash_method := "esptool", id := 10 }

def c10Proj : Project := { name := "ProjectA", id := 1, device_families := [(10, c10Fam)] }

def c10State : FirmwareList :=
  { DeviceFamilies := [(10, c10Fam)], Projects := [(1, c10Proj)],
    valid_family_ids := [10], fwHeap := [] }

def c10BadRow : FirmwareRow :=
  { name := some "FW1", version := some "1.0", family_id := some 10, variant := some "",
    is_fermentrack_supported := some "", in_error := some "", description := some "",
    variant_description := some "", download_url := some "",
    post_install_instructions := some "", weight := some "",
    download_url_partitions := some "", download_url_spiffs := some "",
    checksum := some "", checksum_partitions := some "", checksum_spiffs := some "",
    spiffs_address := some "", id := some 100, project_id := some 2 }

def c10GoodRow : FirmwareRow := { c10BadRow with project_id := some 1 }

/-- Demo remote data: one project (id 1), one esptool family (id 10), one
firmware row (id 100) referencing both. Used by C1 and C9. -/
def demoProjRow : ProjectRow :=
  { name := some "ProjectA", weight := some 1, id := some 1, description := some "",
    support_url := some "", project_url := some "", documentation_url := some "",
    show_in_standalone_flasher := some "" }

def demoFamRow : FamilyRow :=
  { name := some "FamA", flash_method := some "esptool", id := some 10,
    detection_family := some "", download_url_bootloader := some "",
    download_url_otadata := some "", otadata_address := some "",
    checksum_bootloader := some "", checksum_otadata := some "",
    use_1200_bps_touch := some false }

def demoFwRow : FirmwareRow :=
  { name := some "FW1", version := some "1.0", family_id := some 10, variant := some "",
    is_fermentrack_supported := some "", in_error := some "", description := some "",
    variant_description := some "", download_url := some "",
    post_install_instructions := some "", weight := some "",
    download_url_partitions := some "", download_url_spiffs := some "",
    checksum := some "", checksum_partitions := some "", checksum_spiffs := some "",
    spiffs_address := some "", id := some 100, project_id := some 1 }

def demoProjResp : Except Unit (List ProjectRow) := .ok [demoProjRow]

def demoFamResp : Except Unit (List FamilyRow) := .ok [demoFamRow]

def demoFwResp : Except Unit (List FirmwareRow) := .ok [demoFwRow]

/-- State extraction from a load result (identity on success, `emptyFL` on
the never-taken failure side of the concrete fixtures). -/
def extractState : Except Unit (Bool × FirmwareList) → FirmwareList
  | .ok (_, s) => s
  | .error _ => emptyFL

/-- Success flag extraction from a load result. -/
def extractOk : Except Unit (Bool × FirmwareList) → Option Bool
  | .ok (b, _) => some b
  | .error _ => none

/-- The catalog produced by a full load of the demo data from an empty
store. -/
def demoLoaded : FirmwareList :=
  extractState (load_from_website emptyFL demoProjResp demoFamResp demoFwResp true)

/-- A non-empty pre-existing store: one stale registered family (id 99) and
its id in `valid_family_ids`. -/
def dirtyFL : FirmwareList :=
  { DeviceFamilies := [(99, { name := "Old", flash_method := "esptool", id := 99 })],
    Projects := [], valid_family_ids := [99], fwHeap := [] }

/-- The catalog produced by a full load of the demo data into the non-empty
store `dirtyFL`. -/
def demoLoadedDirty : FirmwareList :=
  extractState (load_from_website dirtyFL demoProjResp demoFamResp demoFwResp true)

/-- C5 fixture: a firmware with no optional artifacts whose main image is
already validly cached. -/
def c5Fw : Firmware := { checksum := "c" }

def c5Fam : DeviceFamily := {}

def c5Env : DownloadEnv := { firmware := { st := { file := some "c" } } }

/-! ## Theorems about download_file and pre_flash_web_verify (C2, C3, C6, C7) -/

/-- C2 counterexample: the claim says any network failure or malformed
response yields `false` (the operation returns `false` rather than raising).
In the code `pre_flash_web_verify` has no exception handling at all, so a
failing request propagates the exception instead of returning `false`. -/
theorem C2_counterexample :
    pre_flash_web_verify "c" VerifyResp.err = .error () ∧
    (Except.error () : Except Unit Bool) ≠ .ok false :=
  ⟨rfl, fun h => Except.noConfusion h⟩

/-- C2 amended: with a decoded JSON response in hand, `pre_flash_web_verify`
returns `true` iff the status field is "success" and the message field equals
the locally cached checksum; it returns `false` whenever a present status is
not "success" (even if a message field is present), and when the status is
"success" but the message differs from the checksum; a network failure or a
missing required key raises instead of returning `false`. -/
theorem C2_amended :
    (∀ cs st msg, pre_flash_web_verify cs (VerifyResp.json st msg) = .ok true ↔
      st = some "success" ∧ msg = some cs) ∧
    (∀ cs st2 msg, st2 ≠ "success" →
      pre_flash_web_verify cs (VerifyResp.json (some st2) msg) = .ok false) ∧
    (∀ cs m, m ≠ cs →
      pre_flash_web_verify cs (VerifyResp.json (some "success") (some m)) = .ok false) ∧
    (∀ cs, pre_flash_web_verify cs VerifyResp.err = .error ()) := by
  refine ⟨?_, ?_, ?_, fun cs => rfl⟩
  · intro cs st msg
    cases st with
    | none => simp [pre_flash_web_verify]
    | some s2 =>
      by_cases hs : s2 = "success"
      · subst hs
        cases msg with
        | none => simp [pre_flash_web_verify]
        | some m =>
          by_cases hm : m = cs
          · subst hm
            simp [pre_flash_web_verify]
          · simp [pre_flash_web_verify, hm]
      · simp [pre_flash_web_verify, hs]
  · intro cs st2 msg h
    simp [pre_flash_web_verify, h]
  · intro cs m h
    simp [pre_flash_web_verify, h]

/-- C2 amended witness at a concrete input: a response whose status is
"failed" yields `false` even though a message field is present. -/
theorem C2_amended_witness :
    ("failed" : String) ≠ "success" ∧
    pre_flash_web_verify "c" (VerifyResp.json (some "failed") (some "c")) = .ok false :=
  ⟨by decide, C2_amended.2.1 "c" "failed" (some "c") (by decide)⟩

/-- C3 counterexample: the claim says that with `forceRedownload` unset the
cached-file step runs only when `verifyChecksum` is set and is skipped when
it is unset. Here `verifyChecksum` is unset, yet the code still computes the
digest of the existing file and deletes it on mismatch (final file state
`none`), while the algorithm the claim describes (`fetch_spec`) would leave
the stale file in place (final file state `some "a"`). -/
theorem C3_counterexample :
    download_file "b" false false "u" none { file := some "a", netRequests := 0 } =
      .ok (false, { file := none, netRequests := 0 }) ∧
    fetch_spec "b" false false "u" none { file := some "a", netRequests := 0 } =
      .ok (false, { file := some "a", netRequests := 0 }) ∧
    ({ file := none, netRequests := 0 } : DLState) ≠ { file := some "a", netRequests := 0 } :=
  ⟨rfl, rfl, by decide⟩

/-- C3 amended: with `forceRedownload` unset and a file already present, the
cached-file step runs UNCONDITIONALLY, whatever `verifyChecksum` is: the
digest of the existing file is always compared with `expectedChecksum`; on a
match the call returns success immediately with the state untouched (hence no
network request), and on a mismatch the stale file is deleted before the code
falls through to the URL-check/download steps. -/
theorem C3_amended (cs : String) (cc : Bool) (url : String) (net : Option String)
    (s : DLState) (h : String) (hfile : s.file = some h) :
    (cs = h → download_file cs cc false url net s = .ok (true, s)) ∧
    (cs ≠ h → download_file cs cc false url net s =
      download_file_rest cs cc url net { s with file := none }) := by
  constructor
  · intro hcs
    simp [download_file, hfile, hcs]
  · intro hcs
    simp [download_file, hfile, hcs]

/-- C3 amended witness: with `verifyChecksum` unset and a mismatching cached
file, the file is still deleted before the download step. -/
theorem C3_amended_witness :
    ("a" : String) ≠ "b" ∧
    download_file "a" false false "u" none { file := some "b", netRequests := 0 } =
      download_file_rest "a" false "u" none { file := none, netRequests := 0 } :=
  ⟨by decide, (C3_amended "a" false "u" none { file := some "b", netRequests := 0 } "b" rfl).2
    (by decide)⟩

/-- C6 (confirmed): whenever a `download_file` call with `check_checksum` set
reaches the download step (the cached-file fast path does not return, the URL
passes the length check, and the request streams back content) and the digest
of the downloaded content differs from the expected checksum, the file is
deleted and the call returns `false`: no corrupt artifact is left in place. -/
theorem C6_mismatch_deletes (cs : String) (fd : Bool) (url : String) (c : String)
    (s : DLState) (hurl : ¬ url.length < 12)
    (hfast : ¬ (fd = false ∧ s.file = some cs)) (hc : cs ≠ c) :
    download_file cs true fd url (some c) s =
      .ok (false, { file := none, netRequests := s.netRequests + 1 }) := by
  have hrest : download_file_rest cs true url (some c) { s with file := none } =
      .ok (false, { file := none, netRequests := s.netRequests + 1 }) := by
    simp [download_file_rest, hurl, hc]
  cases hf : s.file with
  | none =>
    have : ({ s with file := none } : DLState) = s := by
      cases s
      simp_all
    rw [← this] at hf ⊢
    simp only [download_file, hf]
    exact hrest
  | some h =>
    cases fd with
    | true =>
      simp only [download_file, hf, if_pos rfl]
      exact hrest
    | false =>
      have hne : cs ≠ h := by
        intro he
        exact hfast ⟨rfl, by rw [hf, ← he]⟩
      simp only [download_file, hf]
      rw [if_neg (by simp), if_neg hne]
      exact hrest

/-- C6 witness: a fresh download whose digest "got" differs from the expected
checksum "want" leaves no file behind and reports failure. -/
theorem C6_witness :
    download_file "want" true false "http://a/fw.bin" (some "got")
        { file := none, netRequests := 0 } =
      .ok (false, { file := none, netRequests := 1 }) :=
  C6_mismatch_deletes "want" false "http://a/fw.bin" "got"
    { file := none, netRequests := 0 } (by decide) (by decide) (by decide)

/-- C7 counterexample: the claim says EVERY `download_file` call whose URL is
shorter than the minimal length returns failure. With a cached file whose
digest matches the checksum (and `force_download` unset) the call returns
success through the caching fast path before the URL is ever examined — here
with the claim example URL "12345" of length 5. -/
theorem C7_counterexample :
    dlOutcome (download_file "h" false false "12345" none
      { file := some "h", netRequests := 0 }) = some true ∧
    (some true : Option Bool) ≠ some false :=
  ⟨rfl, by decide⟩

/-- C7 amended: a `download_file` call whose URL is shorter than the minimal
valid-URL length never performs a network request; it returns success exactly
when the cached-file fast path fires (a file exists whose digest equals the
checksum, with `force_download` unset), and otherwise returns failure with no
file left at the destination. -/
theorem C7_amended (cs : String) (cc fd : Bool) (url : String) (net : Option String)
    (s : DLState) (hurl : url.length < 12) :
    ∃ b s2, download_file cs cc fd url net s = .ok (b, s2) ∧
      s2.netRequests = s.netRequests ∧
      (b = true ↔ (fd = false ∧ s.file = some cs)) ∧
      (b = false → s2.file = none) := by
  have hrest : ∀ s1 : DLState, download_file_rest cs cc url net s1 = .ok (false, s1) := by
    intro s1
    simp [download_file_rest, hurl]
  cases hf : s.file with
  | none =>
    refine ⟨false, s, ?_, rfl, ?_, fun _ => hf⟩
    · have : ({ s with file := none } : DLState) = s := by
        cases s
        simp_all
      simp only [download_file, hf]
      exact hrest s
    · simp [hf]
  | some h =>
    cases fd with
    | true =>
      refine ⟨false, { s with file := none }, ?_, rfl, by simp, fun _ => rfl⟩
      simp only [download_file, hf, if_pos rfl]
      exact hrest _
    | false =>
      by_cases hcs : cs = h
      · subst hcs
        refine ⟨true, s, ?_, rfl, by simp [hf], by simp⟩
        simp [download_file, hf]
      · refine ⟨false, { s with file := none }, ?_, rfl, ?_, fun _ => rfl⟩
        · simp only [download_file, hf]
          rw [if_neg (by simp), if_neg hcs]
          exact hrest _
        · constructor
          · intro hb
            exact Bool.noConfusion hb
          · intro hcon
            exact absurd (Option.some_inj.mp hcon.2).symm hcs

/-- C7 amended witness: a short URL with no cached file yields failure with
no network request and no file. -/
theorem C7_amended_witness :
    ∃ b s2, download_file "c" true false "short" none { file := none, netRequests := 0 } =
        .ok (b, s2) ∧
      s2.netRequests = 0 ∧
      (b = true ↔ (false = false ∧ (none : Option String) = some "c")) ∧
      (b = false → s2.file = none) :=
  C7_amended "c" true false "short" none { file := none, netRequests := 0 } (by decide)

/-! ## Theorems about the load stages (C4, C8, C10) -/

/-- C4 counterexample: the claim says the stage reports failure by RETURNING
`false` (rather than raising) when the top-level request fails. In the code
`load_projects_from_website` has no try/except around the request, so a
request failure propagates as an exception instead of a `False` return
(unlike stages 2 and 3, whose requests are guarded). -/
theorem C4_counterexample :
    load_projects_from_website emptyFL (.error ()) = .error () ∧
    (Except.error () : Except Unit (Bool × FirmwareList)) ≠ .ok (false, emptyFL) :=
  ⟨rfl, fun h => Except.noConfusion h⟩

/-- C4 amended: a single malformed row is indeed caught and skipped without
aborting the stage (appending an unparsable row leaves the resulting catalog
unchanged), and once data is in hand the stage never raises and returns
`false` exactly when the data is empty; but a failure of the TOP-LEVEL
request propagates as an uncaught exception rather than a `false` return. -/
theorem C4_amended :
    (∀ s e, load_projects_from_website s (.error e) = .error e) ∧
    (∀ s data, ∃ b s2, load_projects_from_website s (.ok data) = .ok (b, s2) ∧
      (b = true ↔ data ≠ [])) ∧
    (∀ s rows bad, parseProjectRow bad = none →
      load_project_rows s (rows ++ [bad]) = load_project_rows s rows) := by
  refine ⟨fun s e => rfl, ?_, ?_⟩
  · intro s data
    by_cases hd : data.length > 0
    · refine ⟨true, load_project_rows s data, ?_, ?_⟩
      · simp [load_projects_from_website, hd]
      · simp only [true_iff]
        exact List.length_pos.mp hd
    · refine ⟨false, s, ?_, ?_⟩
      · simp [load_projects_from_website, hd]
      · constructor
        · intro hb
          exact Bool.noConfusion hb
        · intro hne
          exact absurd (List.length_eq_zero.mp (Nat.eq_zero_of_not_pos hd)) hne
  · intro s rows bad hbad
    induction rows generalizing s with
    | nil => simp [load_project_rows, hbad]
    | cons r rs ih =>
      cases hr : parseProjectRow r with
      | some pr =>
        obtain ⟨pid, p⟩ := pr
        simp only [List.cons_append, load_project_rows, hr]
        exact ih _
      | none =>
        simp only [List.cons_append, load_project_rows, hr]
        exact ih _

/-- C4 amended witness: a row missing its `name` key is skipped without
changing the catalog or aborting. -/
theorem C4_amended_witness :
    parseProjectRow badProjectRow = none ∧
    load_project_rows emptyFL ([] ++ [badProjectRow]) = load_project_rows emptyFL [] :=
  ⟨rfl, C4_amended.2.2 emptyFL [] badProjectRow rfl⟩

/-- C8 (confirmed): after `cleanse_projects`, every Project remaining in the
project mapping has a non-empty device-family mapping, and every DeviceFamily
reachable through it has a non-empty firmware sequence. -/
theorem C8_cleanse_nonempty (s : FirmwareList) (pid : Int) (p : Project)
    (hp : (pid, p) ∈ (cleanse_projects s).Projects) :
    p.device_families ≠ [] ∧ ∀ fe ∈ p.device_families, fe.2.firmware ≠ [] := by
  simp only [cleanse_projects] at hp
  rw [List.mem_filterMap] at hp
  obtain ⟨pr, hpr, hf⟩ := hp
  by_cases hlen : (pr.2.device_families.filter (fun fe => fe.2.firmware.length > 0)).length ≤ 0
  · rw [if_pos hlen] at hf
    exact Option.noConfusion hf
  · rw [if_neg hlen] at hf
    injection hf with hf
    have hp2 : p.device_families =
        pr.2.device_families.filter (fun fe => fe.2.firmware.length > 0) := by
      have := congrArg Prod.snd hf
      simp only at this
      rw [← this]
    constructor
    · rw [hp2]
      exact List.length_pos.mp (Nat.lt_of_not_le (fun hle => hlen hle))
    · intro fe hfe
      rw [hp2] at hfe
      have := (List.mem_filter.mp hfe).2
      simp only [decide_eq_true_eq] at this
      exact List.length_pos.mp this

/-- C8 witness: the surviving project of `c8State` satisfies both parts. -/
theorem C8_witness :
    c8Proj.device_families ≠ [] ∧ ∀ fe ∈ c8Proj.device_families, fe.2.firmware ≠ [] :=
  C8_cleanse_nonempty c8State 1 c8Proj (by decide)

/-- C10 (confirmed): `load_firmware_from_website` has no per-row recovery: on
a row with a valid `family_id` but a `project_id` that is not a key of the
project mapping, the dict lookup fails and the whole stage aborts with an
uncaught exception instead of skipping the row — while the same row with a
known `project_id` loads fine. -/
theorem C10_no_row_recovery :
    load_firmware_from_website c10State (.ok [c10BadRow]) = .error () ∧
    ∃ s2, load_firmware_from_website c10State (.ok [c10GoodRow]) = .ok (true, s2) := by
  exact ⟨rfl, ⟨_, rfl⟩⟩

/-! ## Stage-by-stage lemmas for the catalog invariants (C1, C9) -/

theorem alistGet?_isSome_set {α : Type} (l : List (Int × α)) (k k2 : Int) (v : α)
    (h : (alistGet? l k2).isSome) : (alistGet? (alistSet l k v) k2).isSome := by
  by_cases hk : k2 = k
  · subst hk
    rw [alistGet?_set_self]
    rfl
  · rw [alistGet?_set_ne _ _ _ _ hk]
    exact h

theorem alistGet?_isSome_modify {α : Type} (l : List (Int × α)) (k k2 : Int) (f : α → α)
    (h : (alistGet? l k2).isSome) : (alistGet? (alistModify l k f) k2).isSome := by
  by_cases hk : k2 = k
  · rw [hk] at h ⊢
    cases ho : alistGet? l k with
    | none => rw [ho] at h; exact Bool.noConfusion h
    | some a =>
      rw [alistGet?_modify_self, ho]
      rfl
  · rw [alistGet?_modify_ne _ _ _ _ hk]
    exact h

theorem parseProjectRow_df (row : ProjectRow) (pid : Int) (p : Project)
    (h : parseProjectRow row = some (pid, p)) : p.device_families = [] := by
  unfold parseProjectRow at h
  split at h
  · injection h with h2
    obtain ⟨h3, h4⟩ := Prod.mk.injEq _ _ _ _ |>.mp h2
    rw [← h4]
  · exact Option.noConfusion h

theorem parseFamilyRow_fw (row : FamilyRow) (fam : DeviceFamily)
    (h : parseFamilyRow row = some fam) : fam.firmware = [] := by
  unfold parseFamilyRow at h
  split at h
  · injection h with h2
    rw [← h2]
  · exact Option.noConfusion h

theorem fwInv_set_project (s : FirmwareList) (pid : Int) (p : Project)
    (hinv : FwReachInv s) (hdf : p.device_families = []) :
    FwReachInv { s with Projects := alistSet s.Projects pid p } := by
  intro pr hpr fe hfe r hr
  have hpr2 : pr ∈ alistSet s.Projects pid p := hpr
  rcases mem_alistSet hpr2 with h | h
  · subst h
    have hfe2 : fe ∈ p.device_families := hfe
    rw [hdf] at hfe2
    exact absurd hfe2 (List.not_mem_nil fe)
  · exact hinv pr h fe hfe r hr

theorem dfNodup_set_project (s : FirmwareList) (pid : Int) (p : Project)
    (hnd : DfKeysNodup s) (hdf : p.device_families = []) :
    DfKeysNodup { s with Projects := alistSet s.Projects pid p } := by
  intro pr hpr
  have hpr2 : pr ∈ alistSet s.Projects pid p := hpr
  rcases mem_alistSet hpr2 with h | h
  · subst h
    show (p.device_families.map Prod.fst).Nodup
    rw [hdf]
    exact List.nodup_nil
  · exact hnd pr h

/-- Stage 1 row loop: preserves the reachability invariant and well-formed
device-family keys, and leaves the global registry and the valid-id list
untouched. -/
theorem project_rows_preserve (rows : List ProjectRow) :
    ∀ s : FirmwareList,
      (FwReachInv s → FwReachInv (load_project_rows s rows)) ∧
      (DfKeysNodup s → DfKeysNodup (load_project_rows s rows)) ∧
      (load_project_rows s rows).DeviceFamilies = s.DeviceFamilies ∧
      (load_project_rows s rows).valid_family_ids = s.valid_family_ids := by
  induction rows with
  | nil => exact fun s => ⟨id, id, rfl, rfl⟩
  | cons r rest ih =>
    intro s
    cases hr : parseProjectRow r with
    | none =>
      simp only [load_project_rows, hr]
      exact ih s
    | some pr =>
      obtain ⟨pid, p⟩ := pr
      simp only [load_project_rows, hr]
      obtain ⟨i1, i2, i3, i4⟩ := ih { s with Projects := alistSet s.Projects pid p }
      exact ⟨fun h => i1 (fwInv_set_project s pid p h (parseProjectRow_df r pid p hr)),
             fun h => i2 (dfNodup_set_project s pid p h (parseProjectRow_df r pid p hr)),
             i3, i4⟩

theorem fwInv_family_step (s : FirmwareList) (fam : DeviceFamily)
    (hinv : FwReachInv s) (hnd : DfKeysNodup s) (hfw : fam.firmware = []) :
    FwReachInv { s with
      DeviceFamilies := alistSet s.DeviceFamilies fam.id fam,
      valid_family_ids := s.valid_family_ids ++ [fam.id],
      Projects := s.Projects.map (fun pr =>
        (pr.1, { pr.2 with device_families := alistSet pr.2.device_families fam.id fam })) } := by
  intro pr hpr fe hfe r hr
  have hpr2 : pr ∈ s.Projects.map (fun pr2 =>
      (pr2.1, { pr2.2 with device_families := alistSet pr2.2.device_families fam.id fam })) := hpr
  rw [List.mem_map] at hpr2
  obtain ⟨pr0, hpr0, heq⟩ := hpr2
  subst heq
  have hfe2 : fe ∈ alistSet pr0.2.device_families fam.id fam := hfe
  rcases mem_alistSet_nodup (hnd pr0 hpr0) hfe2 with h | h
  · subst h
    have hr2 : r ∈ fam.firmware := hr
    rw [hfw] at hr2
    exact absurd hr2 (List.not_mem_nil r)
  · obtain ⟨hmem, hne⟩ := h
    obtain ⟨g, hg, hrg⟩ := hinv pr0 hpr0 fe hmem r hr
    refine ⟨g, ?_, hrg⟩
    show alistGet? (alistSet s.DeviceFamilies fam.id fam) fe.1 = some g
    rw [alistGet?_set_ne _ _ _ _ hne]
    exact hg

theorem dfNodup_family_step (s : FirmwareList) (fam : DeviceFamily)
    (hnd : DfKeysNodup s) :
    DfKeysNodup { s with
      DeviceFamilies := alistSet s.DeviceFamilies fam.id fam,
      valid_family_ids := s.valid_family_ids ++ [fam.id],
      Projects := s.Projects.map (fun pr =>
        (pr.1, { pr.2 with device_families := alistSet pr.2.device_families fam.id fam })) } := by
  intro pr hpr
  have hpr2 : pr ∈ s.Projects.map (fun pr2 =>
      (pr2.1, { pr2.2 with device_families := alistSet pr2.2.device_families fam.id fam })) := hpr
  rw [List.mem_map] at hpr2
  obtain ⟨pr0, hpr0, heq⟩ := hpr2
  subst heq
  show ((alistSet pr0.2.device_families fam.id fam).map Prod.fst).Nodup
  exact keys_nodup_alistSet _ _ (hnd pr0 hpr0)

/-- Stage 2 row loop: preserves the invariants, and only grows the global
registry and the valid-id list. -/
theorem family_rows_preserve (rows : List FamilyRow) (eo : Bool) :
    ∀ s : FirmwareList,
      (FwReachInv s → DfKeysNodup s →
        FwReachInv (load_family_rows s eo rows) ∧ DfKeysNodup (load_family_rows s eo rows)) ∧
      (∀ k, (alistGet? s.DeviceFamilies k).isSome →
        (alistGet? (load_family_rows s eo rows).DeviceFamilies k).isSome) ∧
      (∀ i, i ∈ s.valid_family_ids → i ∈ (load_family_rows s eo rows).valid_family_ids) := by
  induction rows with
  | nil => exact fun s => ⟨fun h hn => ⟨h, hn⟩, fun k => id, fun i => id⟩
  | cons r rest ih =>
    intro s
    cases hr : parseFamilyRow r with
    | none =>
      simp only [load_family_rows, hr]
      exact ih s
    | some fam =>
      simp only [load_family_rows, hr]
      by_cases hcond : fam.flash_method ≠ "esptool" ∧ eo
      · rw [if_pos hcond]
        exact ih s
      · rw [if_neg hcond]
        obtain ⟨i1, i2, i3⟩ := ih { s with
          DeviceFamilies := alistSet s.DeviceFamilies fam.id fam,
          valid_family_ids := s.valid_family_ids ++ [fam.id],
          Projects := s.Projects.map (fun pr =>
            (pr.1, { pr.2 with device_families := alistSet pr.2.device_families fam.id fam })) }
        refine ⟨fun h hn => i1 (fwInv_family_step s fam h hn (parseFamilyRow_fw r fam hr))
          (dfNodup_family_step s fam hn), fun k hk => ?_, fun i hi => ?_⟩
        · exact i2 k (alistGet?_isSome_set _ _ _ _ hk)
        · exact i3 i (List.mem_append_left _ hi)

/-- Appending a reference under key `fid` in the global registry preserves
every reachability fact and adds the new one. -/
theorem globalGrow (DF : List (Int × DeviceFamily)) (fid : Int) (ref : Nat) (k : Int)
    (g0 : DeviceFamily) (hg0 : alistGet? DF k = some g0) (r : Nat) (hr : r ∈ g0.firmware) :
    ∃ g, alistGet? (alistModify DF fid
        (fun g2 => { g2 with firmware := g2.firmware ++ [ref] })) k = some g ∧
      r ∈ g.firmware := by
  by_cases hk : k = fid
  · subst hk
    refine ⟨{ g0 with firmware := g0.firmware ++ [ref] }, ?_, List.mem_append_left _ hr⟩
    rw [alistGet?_modify_self, hg0]
    rfl
  · refine ⟨g0, ?_, hr⟩
    rw [alistGet?_modify_ne _ _ _ _ hk]
    exact hg0

/-- One stage-3 row: on success, the reachability invariant is preserved, the
global registry keys are preserved, and the valid-id list is unchanged. -/
theorem firmware_row_preserve (s s2 : FirmwareList) (row : FirmwareRow)
    (h : load_firmware_row s row = .ok s2) :
    (FwReachInv s → FwReachInv s2) ∧
    (∀ k, (alistGet? s.DeviceFamilies k).isSome → (alistGet? s2.DeviceFamilies k).isSome) ∧
    (∀ i, i ∈ s.valid_family_ids → i ∈ s2.valid_family_ids) := by
  unfold load_firmware_row at h
  split at h
  · exact Except.noConfusion h
  · rename_i fid hfid
    split at h
    · split at h
      · rename_i fw0 g1 hpfw hg
        split at h
        · exact Except.noConfusion h
        · rename_i p hp
          split at h
          · exact Except.noConfusion h
          · rename_i pf hpf
            injection h with h
            subst h
            refine ⟨?_, fun k hk => alistGet?_isSome_modify _ _ _ _ hk, fun i => id⟩
            intro hinv pr hpr fe hfe r hr
            rcases mem_alistSet (l := s.Projects) hpr with hc | hc
            · subst hc
              rcases mem_alistSet (l := p.device_families) hfe with hd | hd
              · subst hd
                rcases List.mem_append.mp hr with he | he
                · -- an old reference of the project copy: covered by the old
                  -- invariant at key fid, and the global entry only grew
                  obtain ⟨g0, hg0, hrg0⟩ :=
                    hinv (fw0.project_id, p) (alistGet?_mem hp) (fid, pf)
                      (alistGet?_mem hpf) r he
                  exact globalGrow s.DeviceFamilies fid s.fwHeap.length fid g0 hg0 r hrg0
                · -- the newly appended reference: it was also appended to the
                  -- global family found under fid
                  have he2 : r = s.fwHeap.length := List.mem_singleton.mp he
                  subst he2
                  refine ⟨{ g1 with firmware := g1.firmware ++ [s.fwHeap.length] }, ?_, ?_⟩
                  · show alistGet? (alistModify s.DeviceFamilies fid
                      (fun g2 => { g2 with firmware := g2.firmware ++ [s.fwHeap.length] })) fid = _
                    rw [alistGet?_modify_self, hg]
                    rfl
                  · exact List.mem_append_right _ (List.mem_singleton.mpr rfl)
              · obtain ⟨g0, hg0, hrg0⟩ := hinv (fw0.project_id, p) (alistGet?_mem hp) fe hd r hr
                exact globalGrow s.DeviceFamilies fid s.fwHeap.length fe.1 g0 hg0 r hrg0
            · obtain ⟨g0, hg0, hrg0⟩ := hinv pr hc fe hfe r hr
              exact globalGrow s.DeviceFamilies fid s.fwHeap.length fe.1 g0 hg0 r hrg0
      · exact Except.noConfusion h
    · injection h with h
      subst h
      exact ⟨id, fun k => id, fun i => id⟩

/-- Stage 3 row loop: same facts, by induction along the rows. -/
theorem firmware_rows_preserve (rows : List FirmwareRow) :
    ∀ s s2 : FirmwareList, load_firmware_rows s rows = .ok s2 →
      (FwReachInv s → FwReachInv s2) ∧
      (∀ k, (alistGet? s.DeviceFamilies k).isSome → (alistGet? s2.DeviceFamilies k).isSome) ∧
      (∀ i, i ∈ s.valid_family_ids → i ∈ s2.valid_family_ids) := by
  induction rows with
  | nil =>
    intro s s2 h
    have h2 : s = s2 := by
      simp only [load_firmware_rows] at h
      injection h
    subst h2
    exact ⟨id, fun k => id, fun i => id⟩
  | cons r rest ih =>
    intro s s2 h
    simp only [load_firmware_rows] at h
    cases hr : load_firmware_row s r with
    | error e => rw [hr] at h; exact Except.noConfusion h
    | ok s1 =>
      rw [hr] at h
      obtain ⟨a1, a2, a3⟩ := firmware_row_preserve s s1 r hr
      obtain ⟨b1, b2, b3⟩ := ih s1 s2 h
      exact ⟨fun hi => b1 (a1 hi), fun k hk => b2 k (a2 k hk), fun i hi => b3 i (a3 i hi)⟩

/-- `cleanse_projects` preserves the reachability invariant: it only removes
entries. -/
theorem cleanse_inv (s : FirmwareList) (hinv : FwReachInv s) :
    FwReachInv (cleanse_projects s) := by
  intro pr hpr fe hfe r hr
  simp only [cleanse_projects] at hpr
  rw [List.mem_filterMap] at hpr
  obtain ⟨pr0, hpr0, hf⟩ := hpr
  split at hf
  · exact Option.noConfusion hf
  · injection hf with hf
    subst hf
    have hfe2 := (List.mem_filter.mp hfe).1
    exact hinv pr0 hpr0 fe hfe2 r hr

/-- Case analysis on the result state of stage 1. -/
theorem load_projects_cases (s : FirmwareList) (resp : Except Unit (List ProjectRow))
    (b : Bool) (s1 : FirmwareList)
    (h : load_projects_from_website s resp = .ok (b, s1)) :
    s1 = s ∨ ∃ data, s1 = load_project_rows s data := by
  cases resp with
  | error e => exact Except.noConfusion h
  | ok data =>
    by_cases hd : data.length > 0
    · simp only [load_projects_from_website, if_pos hd] at h
      injection h with h
      right
      exact ⟨data, (congrArg Prod.snd h).symm⟩
    · simp only [load_projects_from_website, if_neg hd] at h
      injection h with h
      exact Or.inl (congrArg Prod.snd h).symm

/-- Case analysis on the result state of stage 2. -/
theorem load_families_snd (s : FirmwareList) (eo : Bool)
    (resp : Except Unit (List FamilyRow)) :
    (load_families_from_website s eo resp).2 = s ∨
    ∃ data, (load_families_from_website s eo resp).2 = load_family_rows s eo data := by
  cases resp with
  | error e => exact Or.inl rfl
  | ok data =>
    by_cases hd : data.length > 0
    · right
      refine ⟨data, ?_⟩
      simp only [load_families_from_website, if_pos hd]
    · left
      simp only [load_families_from_website, if_neg hd]

/-- Case analysis on the result state of stage 3. -/
theorem load_firmware_cases (s : FirmwareList) (resp : Except Unit (List FirmwareRow))
    (b : Bool) (s2 : FirmwareList)
    (h : load_firmware_from_website s resp = .ok (b, s2)) :
    s2 = s ∨ ∃ data, load_firmware_rows s data = .ok s2 := by
  cases resp with
  | error e =>
    simp only [load_firmware_from_website] at h
    injection h with h
    exact Or.inl (congrArg Prod.snd h).symm
  | ok data =>
    by_cases hd : data.length > 0
    · simp only [load_firmware_from_website, if_pos hd] at h
      cases hr : load_firmware_rows s data with
      | error e => rw [hr] at h; exact Except.noConfusion h
      | ok s3 =>
        rw [hr] at h
        injection h with h
        right
        refine ⟨data, ?_⟩
        have hs : s3 = s2 := congrArg Prod.snd h
        rw [hr, hs]
    · simp only [load_firmware_from_website, if_neg hd] at h
      injection h with h
      exact Or.inl (congrArg Prod.snd h).symm

/-- When the full load returns at all (with either boolean), the final state
satisfies the reachability invariant provided the starting state did; and the
final state retains every global-registry key and valid family id of the
starting state. -/
theorem load_pipeline_facts (s : FirmwareList) (projResp : Except Unit (List ProjectRow))
    (famResp : Except Unit (List FamilyRow)) (fwResp : Except Unit (List FirmwareRow))
    (eo b : Bool) (s2 : FirmwareList)
    (hok : load_from_website s projResp famResp fwResp eo = .ok (b, s2)) :
    (FwReachInv s → DfKeysNodup s → FwReachInv s2) ∧
    (∀ k, (alistGet? s.DeviceFamilies k).isSome → (alistGet? s2.DeviceFamilies k).isSome) ∧
    (∀ i, i ∈ s.valid_family_ids → i ∈ s2.valid_family_ids) := by
  unfold load_from_website at hok
  split at hok
  · exact Except.noConfusion hok
  · rename_i ok1 s1 hproj
    have stage1 : (FwReachInv s → DfKeysNodup s → FwReachInv s1 ∧ DfKeysNodup s1) ∧
        (∀ k, (alistGet? s.DeviceFamilies k).isSome → (alistGet? s1.DeviceFamilies k).isSome) ∧
        (∀ i, i ∈ s.valid_family_ids → i ∈ s1.valid_family_ids) := by
      rcases load_projects_cases s projResp ok1 s1 hproj with hc | ⟨data, hc⟩
      · subst hc
        exact ⟨fun h hn => ⟨h, hn⟩, fun k => id, fun i => id⟩
      · subst hc
        obtain ⟨i1, i2, i3, i4⟩ := project_rows_preserve data s
        exact ⟨fun h hn => ⟨i1 h, i2 hn⟩, fun k hk => by rw [i3]; exact hk,
               fun i hi => by rw [i4]; exact hi⟩
    split at hok
    · -- stage 1 returned true: stage 2 runs
      split at hok
      rename_i ok2 s3 hfam
      have stage2 : (FwReachInv s1 → DfKeysNodup s1 → FwReachInv s3 ∧ DfKeysNodup s3) ∧
          (∀ k, (alistGet? s1.DeviceFamilies k).isSome →
            (alistGet? s3.DeviceFamilies k).isSome) ∧
          (∀ i, i ∈ s1.valid_family_ids → i ∈ s3.valid_family_ids) := by
        have hsnd : (load_families_from_website s1 eo famResp).2 = s3 :=
          congrArg Prod.snd hfam
        rcases load_families_snd s1 eo famResp with hc | ⟨data, hc⟩
        · rw [hsnd] at hc
          subst hc
          exact ⟨fun h hn => ⟨h, hn⟩, fun k => id, fun i => id⟩
        · rw [hsnd] at hc
          subst hc
          obtain ⟨i1, i2, i3⟩ := family_rows_preserve data eo s1
          exact ⟨fun h hn => i1 h hn, i2, i3⟩
      split at hok
      · -- stage 2 returned true: stage 3 runs
        split at hok
        · exact Except.noConfusion hok
        · rename_i ok3 s4 hfw
          have stage3 : (FwReachInv s3 → FwReachInv s4) ∧
              (∀ k, (alistGet? s3.DeviceFamilies k).isSome →
                (alistGet? s4.DeviceFamilies k).isSome) ∧
              (∀ i, i ∈ s3.valid_family_ids → i ∈ s4.valid_family_ids) := by
            rcases load_firmware_cases s3 fwResp ok3 s4 hfw with hc | ⟨data, hc⟩
            · subst hc
              exact ⟨id, fun k => id, fun i => id⟩
            · obtain ⟨i1, i2, i3⟩ := firmware_rows_preserve data s3 s4 hc
              exact ⟨i1, i2, i3⟩
          have chain : (FwReachInv s → DfKeysNodup s → FwReachInv s4) ∧
              (∀ k, (alistGet? s.DeviceFamilies k).isSome →
                (alistGet? s4.DeviceFamilies k).isSome) ∧
              (∀ i, i ∈ s.valid_family_ids → i ∈ s4.valid_family_ids) :=
            ⟨fun h hn => stage3.1 (stage2.1 (stage1.1 h hn).1 (stage1.1 h hn).2).1,
             fun k hk => stage3.2.1 k (stage2.2.1 k (stage1.2.1 k hk)),
             fun i hi => stage3.2.2 i (stage2.2.2 i (stage1.2.2 i hi))⟩
          split at hok
          · -- cleanse runs
            injection hok with hok
            have hs : cleanse_projects s4 = s2 := congrArg Prod.snd hok
            subst hs
            exact ⟨fun h hn => cleanse_inv s4 (chain.1 h hn),
              fun k hk => chain.2.1 k hk, fun i hi => chain.2.2 i hi⟩
          · injection hok with hok
            have hs : s4 = s2 := congrArg Prod.snd hok
            subst hs
            exact chain
      · injection hok with hok
        have hs : s3 = s2 := congrArg Prod.snd hok
        subst hs
        exact ⟨fun h hn =>
            (stage2.1 (stage1.1 h hn).1 (stage1.1 h hn).2).1,
          fun k hk => stage2.2.1 k (stage1.2.1 k hk),
          fun i hi => stage2.2.2 i (stage1.2.2 i hi)⟩
    · injection hok with hok
      have hs : s1 = s2 := congrArg Prod.snd hok
      subst hs
      exact ⟨fun h hn => (stage1.1 h hn).1, stage1.2.1, stage1.2.2⟩

/-! ## Claim theorems C1 and C9 -/

/-- C1 counterexample: the claim says the two occurrences of a Firmware (via
a Project and via the global registry) are independently populated copies,
so that mutating a field of the Firmware reached via the Project leaves the
registry-side Firmware unchanged. After loading the demo catalog, the
firmware reached from project 1 / family 10 and the firmware in the global
registry family 10 are the SAME heap object (reference 0): writing the name
field through that reference changes what the registry shows from FW1 to
EVIL — the registry side does NOT stay unchanged. -/
theorem C1_counterexample :
    projectFamilyRefs demoLoaded 1 10 = [0] ∧
    globalFamilyRefs demoLoaded 10 = [0] ∧
    globalFamilyFwNames demoLoaded 10 = [some "FW1"] ∧
    globalFamilyFwNames (mutateFwName demoLoaded 0 "EVIL") 10 = [some "EVIL"] ∧
    ([some "EVIL"] : List (Option String)) ≠ [some "FW1"] :=
  ⟨rfl, rfl, rfl, rfl, by decide⟩

/-- C1 amended: after a successful (or failed-with-state) full load from a
state already satisfying it — in particular from the empty store of a fresh
`FirmwareList` — every firmware reference reachable from a Project through
its device-family mapping is also present in the global registry family of
the same id. The content is identical because both sides hold the very same
heap reference (they are aliases, not independent copies), so a mutation
through one side is visible through the other. -/
theorem C1_alias_reachability (s : FirmwareList) (projResp : Except Unit (List ProjectRow))
    (famResp : Except Unit (List FamilyRow)) (fwResp : Except Unit (List FirmwareRow))
    (eo b : Bool) (s2 : FirmwareList) (hinv : FwReachInv s) (hnd : DfKeysNodup s)
    (hok : load_from_website s projResp famResp fwResp eo = .ok (b, s2)) :
    FwReachInv s2 :=
  (load_pipeline_facts s projResp famResp fwResp eo b s2 hok).1 hinv hnd

/-- C1 amended witness: the invariant holds of the catalog loaded from the
empty store with the demo data. -/
theorem C1_alias_reachability_witness : FwReachInv demoLoaded :=
  C1_alias_reachability emptyFL demoProjResp demoFamResp demoFwResp true true demoLoaded
    (fun pr hpr => absurd hpr (List.not_mem_nil pr))
    (fun pr hpr => absurd hpr (List.not_mem_nil pr))
    rfl

/-- C9 counterexample: the claim says loading given remote data into a
non-empty store yields the same exposed catalog (Projects, DeviceFamilies,
valid-family-id state) as loading the same data into an empty store. Loading
the demo data into `dirtyFL` (which holds a stale family 99) succeeds but
keeps family 99 registered and keeps 99 in `valid_family_ids`, unlike the
load from the empty store: nothing is discarded before rebuilding. -/
theorem C9_counterexample :
    extractOk (load_from_website emptyFL demoProjResp demoFamResp demoFwResp true) =
      some true ∧
    extractOk (load_from_website dirtyFL demoProjResp demoFamResp demoFwResp true) =
      some true ∧
    demoLoaded.valid_family_ids = [10] ∧
    demoLoadedDirty.valid_family_ids = [99, 10] ∧
    demoLoadedDirty.valid_family_ids ≠ demoLoaded.valid_family_ids ∧
    (alistGet? demoLoadedDirty.DeviceFamilies 99).isSome = true ∧
    (alistGet? demoLoaded.DeviceFamilies 99).isSome = false :=
  ⟨rfl, rfl, rfl, rfl, by decide, rfl, rfl⟩

/-- C9 amended: `load_from_website` merges into the pre-existing store rather
than discarding and rebuilding it: whatever the load returns, every global
DeviceFamily id registered before the load is still registered afterwards,
and every pre-existing valid family id is still valid afterwards; hence the
result generally depends on the prior store contents, not only on the data
fetched during the load. -/
theorem C9_merge_monotone (s : FirmwareList) (projResp : Except Unit (List ProjectRow))
    (famResp : Except Unit (List FamilyRow)) (fwResp : Except Unit (List FirmwareRow))
    (eo b : Bool) (s2 : FirmwareList)
    (hok : load_from_website s projResp famResp fwResp eo = .ok (b, s2)) :
    (∀ k, (alistGet? s.DeviceFamilies k).isSome → (alistGet? s2.DeviceFamilies k).isSome) ∧
    (∀ i, i ∈ s.valid_family_ids → i ∈ s2.valid_family_ids) :=
  ⟨(load_pipeline_facts s projResp famResp fwResp eo b s2 hok).2.1,
   (load_pipeline_facts s projResp famResp fwResp eo b s2 hok).2.2⟩

/-- C9 amended witness: the stale family 99 of `dirtyFL` survives the load of
the demo data, both in the registry and in the valid-id list. -/
theorem C9_merge_monotone_witness :
    (alistGet? demoLoadedDirty.DeviceFamilies 99).isSome = true ∧
    (99 : Int) ∈ demoLoadedDirty.valid_family_ids :=
  ⟨(C9_merge_monotone dirtyFL demoProjResp demoFamResp demoFwResp true true
      demoLoadedDirty rfl).1 99 rfl,
   (C9_merge_monotone dirtyFL demoProjResp demoFamResp demoFwResp true true
      demoLoadedDirty rfl).2 99 (by decide)⟩

/-! ## Claim C5: download_to_file ordering and short-circuiting -/

/-- One-step unfolding of `runSteps`. -/
theorem runSteps_cons (cc fd : Bool) (env : DownloadEnv) (k : ArtifactKind)
    (cs url : String) (rest : List (ArtifactKind × String × String)) :
    runSteps cc fd env ((k, cs, url) :: rest) =
      match download_file cs cc fd url (getSlot env k).net (getSlot env k).st with
      | .error e => .error e
      | .ok (b, st2) =>
        if b then
          match runSteps cc fd (setSlot env k { getSlot env k with st := st2 }) rest with
          | .error e => .error e
          | .ok (res, log, env3) => .ok (res, (k, true) :: log, env3)
        else .ok (false, [(k, false)], setSlot env k { getSlot env k with st := st2 }) :=
  rfl

theorem dtf_main_runSteps (fw : Firmware) (cc fd : Bool) (env : DownloadEnv) :
    dtf_main fw cc fd env =
      runSteps cc fd env [(ArtifactKind.firmware, fw.checksum, fw.download_url)] := by
  rw [runSteps_cons]
  simp only [getSlot, setSlot, dtf_main]
  cases hdf : download_file fw.checksum cc fd fw.download_url env.firmware.net
      env.firmware.st with
  | error e => rfl
  | ok r =>
    obtain ⟨b, st2⟩ := r
    cases b
    · rfl
    · rfl

theorem dtf_otadata_runSteps (fw : Firmware) (fam : DeviceFamily) (cc fd : Bool)
    (env : DownloadEnv) :
    dtf_otadata fw fam cc fd env = runSteps cc fd env
      ((if fam.download_url_otadata.length > 12 ∧ fam.otadata_address.length > 2 then
        [(ArtifactKind.otadata, fam.checksum_otadata, fam.download_url_otadata)]
      else []) ++ [(ArtifactKind.firmware, fw.checksum, fw.download_url)]) := by
  by_cases hg : fam.download_url_otadata.length > 12 ∧ fam.otadata_address.length > 2
  · rw [if_pos hg, List.cons_append, List.nil_append, runSteps_cons]
    simp only [getSlot, setSlot, dtf_otadata, if_pos hg]
    cases hdf : download_file fam.checksum_otadata cc fd fam.download_url_otadata
        env.otadata.net env.otadata.st with
    | error e => rfl
    | ok r =>
      obtain ⟨b, st2⟩ := r
      cases b
      · rfl
      · simp only [dtf_main_runSteps]
  · rw [if_neg hg, List.nil_append]
    simp only [dtf_otadata, if_neg hg]
    exact dtf_main_runSteps fw cc fd env

theorem dtf_bootloader_runSteps (fw : Firmware) (fam : DeviceFamily) (cc fd : Bool)
    (env : DownloadEnv) :
    dtf_bootloader fw fam cc fd env = runSteps cc fd env
      ((if fam.download_url_bootloader.length > 12 then
        [(ArtifactKind.bootloader, fam.checksum_bootloader, fam.download_url_bootloader)]
      else []) ++
      ((if fam.download_url_otadata.length > 12 ∧ fam.otadata_address.length > 2 then
        [(ArtifactKind.otadata, fam.checksum_otadata, fam.download_url_otadata)]
      else []) ++ [(ArtifactKind.firmware, fw.checksum, fw.download_url)])) := by
  by_cases hg : fam.download_url_bootloader.length > 12
  · rw [if_pos hg, List.cons_append, List.nil_append, runSteps_cons]
    simp only [getSlot, setSlot, dtf_bootloader, if_pos hg]
    cases hdf : download_file fam.checksum_bootloader cc fd fam.download_url_bootloader
        env.bootloader.net env.bootloader.st with
    | error e => rfl
    | ok r =>
      obtain ⟨b, st2⟩ := r
      cases b
      · rfl
      · simp only [dtf_otadata_runSteps]
  · rw [if_neg hg, List.nil_append]
    simp only [dtf_bootloader, if_neg hg]
    exact dtf_otadata_runSteps fw fam cc fd env

theorem dtf_spiffs_runSteps (fw : Firmware) (fam : DeviceFamily) (cc fd : Bool)
    (env : DownloadEnv) :
    dtf_spiffs fw fam cc fd env = runSteps cc fd env
      ((if fw.download_url_spiffs.length > 12 ∧ fw.spiffs_address.length > 2 then
        [(ArtifactKind.spiffs, fw.checksum_spiffs, fw.download_url_spiffs)]
      else []) ++
      ((if fam.download_url_bootloader.length > 12 then
        [(ArtifactKind.bootloader, fam.checksum_bootloader, fam.download_url_bootloader)]
      else []) ++
      ((if fam.download_url_otadata.length > 12 ∧ fam.otadata_address.length > 2 then
        [(ArtifactKind.otadata, fam.checksum_otadata, fam.download_url_otadata)]
      else []) ++ [(ArtifactKind.firmware, fw.checksum, fw.download_url)]))) := by
  by_cases hg : fw.download_url_spiffs.length > 12 ∧ fw.spiffs_address.length > 2
  · rw [if_pos hg, List.cons_append, List.nil_append, runSteps_cons]
    simp only [getSlot, setSlot, dtf_spiffs, if_pos hg]
    cases hdf : download_file fw.checksum_spiffs cc fd fw.download_url_spiffs
        env.spiffs.net env.spiffs.st with
    | error e => rfl
    | ok r =>
      obtain ⟨b, st2⟩ := r
      cases b
      · rfl
      · simp only [dtf_bootloader_runSteps]
  · rw [if_neg hg, List.nil_append]
    simp only [dtf_spiffs, if_neg hg]
    exact dtf_bootloader_runSteps fw fam cc fd env

/-- `download_to_file` is exactly the short-circuiting runner on the fixed
guarded plan. -/
theorem download_to_file_runSteps (fw : Firmware) (fam : DeviceFamily) (cc fd : Bool)
    (env : DownloadEnv) :
    download_to_file fw fam cc fd env = runSteps cc fd env (plannedSteps fw fam) := by
  unfold plannedSteps
  by_cases hg : fw.download_url_partitions.length > 12
  · rw [if_pos hg, List.cons_append, List.nil_append, runSteps_cons]
    simp only [getSlot, setSlot, download_to_file, if_pos hg]
    cases hdf : download_file fw.checksum_partitions cc fd fw.download_url_partitions
        env.partitions.net env.partitions.st with
    | error e => rfl
    | ok r =>
      obtain ⟨b, st2⟩ := r
      cases b
      · rfl
      · simp only [dtf_spiffs_runSteps]
  · rw [if_neg hg, List.nil_append]
    simp only [download_to_file, if_neg hg]
    exact dtf_spiffs_runSteps fw fam cc fd env

/-- The runner attempts a prefix of its plan in order; it succeeds iff it ran
the whole plan with every step succeeding; and on failure the attempted log
is a run of successes closed by the single failing step. -/
theorem runSteps_facts (cc fd : Bool) (steps : List (ArtifactKind × String × String)) :
    ∀ env res log env2, runSteps cc fd env steps = .ok (res, log, env2) →
      (∃ t, log.map Prod.fst ++ t = steps.map (fun x => x.1)) ∧
      (res = true ↔ (log.map Prod.fst = steps.map (fun x => x.1) ∧ ∀ e ∈ log, e.2 = true)) ∧
      (res = false → ∃ pre k2, log = pre ++ [(k2, false)] ∧ ∀ e ∈ pre, e.2 = true) := by
  induction steps with
  | nil =>
    intro env res log env2 h
    injection h with h2
    injection h2 with ha hb
    injection hb with hc hd
    subst ha
    subst hc
    refine ⟨⟨[], rfl⟩, by simp, ?_⟩
    intro hcon
    exact Bool.noConfusion hcon
  | cons step rest ih =>
    obtain ⟨k, cs, url⟩ := step
    intro env res log env2 h
    rw [runSteps_cons] at h
    split at h
    · exact Except.noConfusion h
    · rename_i b st2 hdf
      split at h
      · split at h
        · exact Except.noConfusion h
        · rename_i res2 log2 env3 hrs
          injection h with h2
          injection h2 with ha hb
          injection hb with hc hd
          subst ha
          subst hc
          obtain ⟨⟨t, ht⟩, p2, p3⟩ := ih _ res2 log2 env3 hrs
          refine ⟨⟨t, ?_⟩, ?_, ?_⟩
          · rw [List.map_cons, List.map_cons, List.cons_append, ht]
          · constructor
            · intro hres
              obtain ⟨hm, hall⟩ := p2.mp hres
              refine ⟨by rw [List.map_cons, List.map_cons, hm], ?_⟩
              intro e he
              rcases List.mem_cons.mp he with he2 | he2
              · rw [he2]
              · exact hall e he2
            · intro hcon
              obtain ⟨hm, hall⟩ := hcon
              rw [List.map_cons, List.map_cons] at hm
              injection hm with hm1 hm2
              exact p2.mpr ⟨hm2, fun e he => hall e (List.mem_cons_of_mem _ he)⟩
          · intro hres
            obtain ⟨pre, k2, hl, hpre⟩ := p3 hres
            refine ⟨(k, true) :: pre, k2, ?_, ?_⟩
            · rw [hl, List.cons_append]
            · intro e he
              rcases List.mem_cons.mp he with he2 | he2
              · rw [he2]
              · exact hpre e he2
      · injection h with h2
        injection h2 with ha hb
        injection hb with hc hd
        subst ha
        subst hc
        refine ⟨⟨rest.map (fun x => x.1), by simp⟩, ?_, ?_⟩
        · constructor
          · intro hcon
            exact Bool.noConfusion hcon
          · intro hcon
            obtain ⟨hm, hall⟩ := hcon
            have h3 := hall (k, false) (List.mem_singleton.mpr rfl)
            exact Bool.noConfusion h3
        · intro _
          exact ⟨[], k, by simp, fun e he => absurd he (List.not_mem_nil e)⟩

/-- C5 (confirmed): `download_to_file` attempts its artifacts in the fixed
guarded order `plannedSteps` — partitions (URL length above threshold),
SPIFFS (URL and address present), family bootloader (URL present), family
otadata (URL and address present), then always the main firmware image, which
closes every plan: the attempted steps are a prefix of the plan in order; the
call returns success iff every planned step was attempted and succeeded; and
on failure the attempted log is a run of successes closed by the single
failing step — nothing after it is attempted. -/
theorem C5_fixed_order_short_circuit (fw : Firmware) (fam : DeviceFamily) (cc fd : Bool)
    (env : DownloadEnv) (res : Bool) (log : List (ArtifactKind × Bool))
    (env2 : DownloadEnv)
    (hok : download_to_file fw fam cc fd env = .ok (res, log, env2)) :
    (∃ t, log.map Prod.fst ++ t = (plannedSteps fw fam).map (fun x => x.1)) ∧
    (∃ pre, (plannedSteps fw fam).map (fun x => x.1) = pre ++ [ArtifactKind.firmware]) ∧
    (res = true ↔ (log.map Prod.fst = (plannedSteps fw fam).map (fun x => x.1) ∧
      ∀ e ∈ log, e.2 = true)) ∧
    (res = false → ∃ pre k2, log = pre ++ [(k2, false)] ∧ ∀ e ∈ pre, e.2 = true) := by
  rw [download_to_file_runSteps] at hok
  obtain ⟨p1, p2, p3⟩ := runSteps_facts cc fd (plannedSteps fw fam) env res log env2 hok
  refine ⟨p1, ?_, p2, p3⟩
  refine ⟨((if fw.download_url_partitions.length > 12 then
      [(ArtifactKind.partitions, fw.checksum_partitions, fw.download_url_partitions)]
    else []) ++
    ((if fw.download_url_spiffs.length > 12 ∧ fw.spiffs_address.length > 2 then
      [(ArtifactKind.spiffs, fw.checksum_spiffs, fw.download_url_spiffs)]
    else []) ++
    ((if fam.download_url_bootloader.length > 12 then
      [(ArtifactKind.bootloader, fam.checksum_bootloader, fam.download_url_bootloader)]
    else []) ++
    (if fam.download_url_otadata.length > 12 ∧ fam.otadata_address.length > 2 then
      [(ArtifactKind.otadata, fam.checksum_otadata, fam.download_url_otadata)]
    else [])))).map (fun x => x.1), ?_⟩
  simp [plannedSteps, List.map_append, List.append_assoc]

/-- C5 witness: with no optional artifacts and a validly cached main image,
the run attempts exactly the main firmware step and succeeds. -/
theorem C5_witness :
    (∃ t, (([(ArtifactKind.firmware, true)] : List (ArtifactKind × Bool)).map Prod.fst)
      ++ t = (plannedSteps c5Fw c5Fam).map (fun x => x.1)) ∧
    (∃ pre, (plannedSteps c5Fw c5Fam).map (fun x => x.1) =
      pre ++ [ArtifactKind.firmware]) ∧
    (true = true ↔
      ((([(ArtifactKind.firmware, true)] : List (ArtifactKind × Bool)).map Prod.fst) =
        (plannedSteps c5Fw c5Fam).map (fun x => x.1) ∧
      ∀ e ∈ ([(ArtifactKind.firmware, true)] : List (ArtifactKind × Bool)), e.2 = true)) ∧
    (true = false → ∃ pre k2,
      ([(ArtifactKind.firmware, true)] : List (ArtifactKind × Bool)) =
        pre ++ [(k2, false)] ∧ ∀ e ∈ pre, e.2 = true) :=
  C5_fixed_order_short_circuit c5Fw c5Fam true false c5Env true
    [(ArtifactKind.firmware, true)] c5Env rfl

end Mbdflasher
